import Mathlib

/-! # Runtime support library (stdlib.c): numeric input, generators, guarded allocation

A shallow embedding of `src/stdlib/stdlib.c`.

* `int64_t` values are mathematical integers (`Int`); the only arithmetic the
  library performs on them, `value + 1`, is reduced with `wrap64`, the
  two-complement reduction to 64 bits.
* A local that the C code declares without an initialiser (`resume_result_t result;`)
  holds an indeterminate content.  The embedding takes that content as the first
  argument `result` of the function, so a field that the code never writes keeps
  the content it had on entry.
* The C library is the environment: the unread part of standard input is an
  explicit `Source`, `scanf` and `malloc` are modelled next to the code that
  calls them.
-/

namespace Stdlib

/-! ## 64-bit integers -/

/-- Smallest value of `int64_t`. -/
def INT64_MIN : Int := -9223372036854775808

/-- Largest value of `int64_t`. -/
def INT64_MAX : Int := 9223372036854775807

/-- Membership in the range of `int64_t`. -/
def isInt64 (x : Int) : Prop := INT64_MIN ≤ x ∧ x ≤ INT64_MAX

instance (x : Int) : Decidable (isInt64 x) := by
  unfold isInt64; infer_instance

/-- Reduction of a mathematical integer to its 64-bit two-complement representative. -/
def wrap64 (x : Int) : Int :=
  (x + 9223372036854775808) % 18446744073709551616 - 9223372036854775808

/-! ## Generators: types -/

/-- The C struct `resume_result_t`: the produced value and the successor state. -/
structure resume_result_t where
  value : Int
  state : Int
deriving DecidableEq

/-! ## Bounded range generator -/

/-- The C function `int64_range_init`: the handle is the upper bound itself. -/
def int64_range_init (max : Int) : Int := max

/-- The C function `int64_range_resume`.  `result` is the indeterminate content of
the uninitialised local of the same name. -/
def int64_range_resume (result : resume_result_t) (max value : Int) : resume_result_t :=
  if value < max then
    let result := { result with value := value }
    { result with state := wrap64 (value + 1) }
  else
    { result with state := 0 }

/-- State handed to call number `k + 1` of a consumer that starts a fresh range
generator at state `0` and feeds every returned state into the next call.
`uninit k` is the indeterminate content of the local of call number `k + 1`. -/
def range_state (max : Int) (uninit : Nat → resume_result_t) : Nat → Int
  | 0 => 0
  | k + 1 =>
    (int64_range_resume (uninit k) (int64_range_init max) (range_state max uninit k)).state

/-- Result of call number `k + 1` of that consumer. -/
def range_call (max : Int) (uninit : Nat → resume_result_t) (k : Nat) : resume_result_t :=
  int64_range_resume (uninit k) (int64_range_init max) (range_state max uninit k)

/-- States that a consumer can hold after starting a range generator at state `0`
and making producing calls only (calls with `value < max`), each on the state the
previous call returned. -/
inductive range_reachable (max : Int) : Int → Prop where
  | initial : range_reachable max 0
  | producing (result : resume_result_t) (value : Int) :
      range_reachable max value → value < max →
      range_reachable max (int64_range_resume result max value).state

/-- Modelled from the spec: the initial resumable state of a range generator.
`int64_range_init` returns the handle alone; the state of the first resume is a
constant of the calling code, which is not among the library sources.  Section 4.1
of the specification gives it as `0`. -/
def int64_range_initial_state : Int := 0

/-- The C function `int64_range_finalize`, whose body is empty: a state transformer
that returns nothing and hands back the state of the world `w` it was given. -/
def int64_range_finalize {σ : Type} (id : Int) (w : σ) : Unit × σ :=
  let _ := id
  ((), w)

/-! ## Standard input and `scanf` -/

/-- The unread characters of standard input, in reading order; the stream is at its
end after the last of them. -/
abbrev Source := List Char

/-- The C library predicate `isspace` in the C locale: space, and the control
characters 9 to 13 (tab, line feed, vertical tab, form feed, carriage return). -/
def isspace (c : Char) : Bool := c.toNat = 32 || (9 ≤ c.toNat && c.toNat ≤ 13)

/-- The C library predicate `isdigit`. -/
def isdigit (c : Char) : Bool := 48 ≤ c.toNat && c.toNat ≤ 57

/-- The C library constant `EOF`. -/
def EOF : Int := -1

/-- Number denoted by a run of decimal digits. -/
def decimal_value (digits : List Char) : Nat :=
  digits.foldl (fun acc c => 10 * acc + (c.toNat - 48)) 0

/-- Saturation at the bounds of `int64_t`, what the conversion of the C library
stores for a numeral out of range. -/
def clamp64 (x : Int) : Int :=
  if x < INT64_MIN then INT64_MIN else if INT64_MAX < x then INT64_MAX else x

/-- What one call of `scanf` does: the value it returns, what it stored through its
pointer argument (if anything), and the input it left unread. -/
structure scanf_outcome where
  ret : Int
  stored : Option Int
  rest : Source
deriving DecidableEq

/-- The C library call `scanf("%" SCNd64, &x)` on the unread input `stdin`
(ISO C, 7.21.6.2).  White space is skipped; at the end of the stream this is an
input failure and the call returns `EOF`.  Otherwise an optional sign and the
longest run of digits are read: with no digit the call is a matching failure, it
returns `0`, stores nothing and leaves the offending character unread (a sign that
was read stays consumed); with digits it stores the number, saturated to 64 bits,
leaves what follows the digits unread and returns `1`. -/
def scanf_d64 (stdin : Source) : scanf_outcome :=
  match stdin.dropWhile isspace with
  | [] => { ret := EOF, stored := none, rest := [] }
  | c :: cs =>
    let negative : Bool := c = '-'
    let body : Source := if c = '-' ∨ c = '+' then cs else c :: cs
    let digits := body.takeWhile isdigit
    if digits = [] then
      { ret := 0, stored := none, rest := body }
    else
      let magnitude : Int := decimal_value digits
      { ret := 1
        stored := some (clamp64 (if negative then -magnitude else magnitude))
        rest := body.dropWhile isdigit }

/-! ## Numeric input -/

/-- The C function `read_int64` on the unread input `stdin`; it returns its result
together with the input left unread.  `value` is the indeterminate content of the
uninitialised local of the same name, which `scanf` overwrites only when it
converts a number; the value that `scanf` returns is discarded. -/
def read_int64 (value : Int) (stdin : Source) : Int × Source :=
  let scanned := scanf_d64 stdin
  let value : Int :=
    match scanned.stored with
    | some v => v
    | none => value
  (value, scanned.rest)

/-! ## External input generator -/

/-- The C function `int64_input_init`: a constant placeholder handle. -/
def int64_input_init : Int := 0

/-- The C function `int64_input_resume` on the unread input `stdin`; it returns the
result together with the input left unread.  `result` is the indeterminate content
of the uninitialised local of the same name: `scanf` writes its value field only
when it converts a number. -/
def int64_input_resume (result : resume_result_t) (id state : Int) (stdin : Source) :
    resume_result_t × Source :=
  let _ := id
  let _ := state
  let scanned := scanf_d64 stdin
  let result : resume_result_t :=
    match scanned.stored with
    | some v => { result with value := v }
    | none => result
  ({ result with state := if scanned.ret ≠ EOF then 1 else 0 }, scanned.rest)

/-- The C function `int64_input_finalize`, whose body is empty. -/
def int64_input_finalize {σ : Type} (id : Int) (w : σ) : Unit × σ :=
  let _ := id
  ((), w)

/-- State and unread input handed to call number `k + 1` of a consumer that starts
an input generator at state `1` on the input `stdin` and feeds every returned
state into the next call. -/
def input_state (uninit : Nat → resume_result_t) (stdin : Source) : Nat → Int × Source
  | 0 => (1, stdin)
  | k + 1 =>
    let r := int64_input_resume (uninit k) int64_input_init
      (input_state uninit stdin k).1 (input_state uninit stdin k).2
    (r.1.state, r.2)

/-- Result of call number `k + 1` of that consumer. -/
def input_call (uninit : Nat → resume_result_t) (stdin : Source) (k : Nat) :
    resume_result_t :=
  (int64_input_resume (uninit k) int64_input_init
    (input_state uninit stdin k).1 (input_state uninit stdin k).2).1

/-! ## Input made of numerals

The shape of an input on which every read succeeds, used to state what the input
generator does on the texts the language expects: numerals separated by white
space. -/

/-- One numeral of the input with the white space that precedes it: an optional
sign and a run of digits. -/
structure numeral where
  space : List Char
  sign : List Char
  digits : List Char

/-- The parts of a numeral are what their names say: white space, then nothing or
one sign character, then at least one digit. -/
def numeral.well_formed (n : numeral) : Prop :=
  (∀ c ∈ n.space, isspace c = true) ∧
  (n.sign = [] ∨ n.sign = ['-'] ∨ n.sign = ['+']) ∧
  n.digits ≠ [] ∧ (∀ c ∈ n.digits, isdigit c = true)

/-- The integer a numeral denotes, saturated to 64 bits. -/
def numeral.value (n : numeral) : Int :=
  clamp64 (if n.sign = ['-'] then -(decimal_value n.digits : Int) else decimal_value n.digits)

/-- The input text that consists of the numerals `ns` followed by `trailing`. -/
def source_text : List numeral → List Char → Source
  | [], trailing => trailing
  | n :: ns, trailing => n.space ++ (n.sign ++ (n.digits ++ source_text ns trailing))

/-- The text does not begin with a digit. -/
def no_leading_digit (s : Source) : Prop := ∀ c ∈ s.head?, isdigit c = false

/-- The text `source_text ns trailing` reads as exactly the numerals `ns`: each of
them is well formed and is not continued by a digit, and `trailing` is white space. -/
def well_formed : List numeral → List Char → Prop
  | [], trailing => ∀ c ∈ trailing, isspace c = true
  | n :: ns, trailing =>
    n.well_formed ∧ no_leading_digit (source_text ns trailing) ∧ well_formed ns trailing

/-! ## Sequences of generator calls -/

/-- One call of the generator interface, with its arguments (and, for a resume,
the indeterminate content of its uninitialised local). -/
inductive call where
  | range_resume (result : resume_result_t) (max value : Int)
  | range_finalize (id : Int)
  | input_resume (result : resume_result_t) (id state : Int)
  | input_finalize (id : Int)

/-- Effect of one call on the unread input `stdin`: the resume results handed to
the caller (none for a finalize) and the input left unread. -/
def perform (c : call) (stdin : Source) : List resume_result_t × Source :=
  match c with
  | .range_resume result max value => ([int64_range_resume result max value], stdin)
  | .range_finalize id => ([], (int64_range_finalize id stdin).2)
  | .input_resume result id state =>
    ([(int64_input_resume result id state stdin).1],
      (int64_input_resume result id state stdin).2)
  | .input_finalize id => ([], (int64_input_finalize id stdin).2)

/-- Effect of a sequence of calls, performed in order: all the resume results, in
the order they were returned, and the input left unread at the end. -/
def perform_all : List call → Source → List resume_result_t × Source
  | [], stdin => ([], stdin)
  | c :: cs, stdin =>
    ((perform c stdin).1 ++ (perform_all cs (perform c stdin).2).1,
      (perform_all cs (perform c stdin).2).2)

/-! ## Guarded allocation -/

/-- The null pointer, as an address. -/
def NULL : Nat := 0

/-- The part of the C library that `_$checked_malloc` calls: `malloc` as the address
it returns for a request of `size` bytes (`NULL` on failure), `strerror`, and the
error number `ENOMEM`. -/
structure libc where
  malloc : Nat → Nat
  strerror : Int → String
  ENOMEM : Int

/-- How a call ends: it returns a value to its caller, or it terminates the
process through `exit` with a status.  Both carry the text written to the
diagnostic stream during the call. -/
inductive outcome (α : Type) where
  | returned (value : α) (stderr : String)
  | exited (status : Int) (stderr : String)
deriving DecidableEq

/-- The C function `_$checked_malloc`. -/
def checked_malloc (env : libc) (size : Nat) : outcome Nat :=
  let address := env.malloc size
  if size > 0 ∧ address = NULL then
    outcome.exited 1 (env.strerror env.ENOMEM ++ "\n")
  else
    outcome.returned address ""

/-! ## Lemmas on the range generator -/

lemma wrap64_of_isInt64 (x : Int) (h : isInt64 x) : wrap64 x = x := by
  unfold isInt64 INT64_MIN INT64_MAX at h
  unfold wrap64
  omega

lemma range_resume_state_indep (r₁ r₂ : resume_result_t) (max value : Int) :
    (int64_range_resume r₁ max value).state = (int64_range_resume r₂ max value).state := by
  unfold int64_range_resume
  split <;> rfl

lemma range_state_indep (max : Int) (u₁ u₂ : Nat → resume_result_t) (k : Nat) :
    range_state max u₁ k = range_state max u₂ k := by
  induction k with
  | zero => rfl
  | succ k ih =>
    simp only [range_state]
    rw [ih]
    exact range_resume_state_indep _ _ _ _

lemma range_state_eq (max : Int) (uninit : Nat → resume_result_t) (hmax : max ≤ INT64_MAX)
    (k : Nat) (hk : (k : Int) ≤ max) : range_state max uninit k = k := by
  induction k with
  | zero => rfl
  | succ k ih =>
    have hk' : (k : Int) < max := by push_cast at hk; omega
    have ih' := ih (le_of_lt hk')
    simp only [range_state, int64_range_init, int64_range_resume, ih', if_pos hk']
    rw [wrap64_of_isInt64]
    · push_cast; rfl
    · unfold isInt64 INT64_MIN; unfold INT64_MAX at hmax ⊢
      omega

lemma range_resume_producing (result : resume_result_t) (max value : Int)
    (hmax : isInt64 max) (hvalue : isInt64 value) (h : value < max) :
    int64_range_resume result max value = { value := value, state := value + 1 } := by
  have hw : wrap64 (value + 1) = value + 1 := by
    apply wrap64_of_isInt64
    unfold isInt64 INT64_MIN INT64_MAX at *
    omega
  simp only [int64_range_resume, if_pos h, hw]

lemma range_resume_exhausted (result : resume_result_t) (max value : Int)
    (h : ¬ value < max) :
    int64_range_resume result max value = { value := result.value, state := 0 } := by
  simp only [int64_range_resume, if_neg h]

lemma range_resume_indep_of_lt (r₁ r₂ : resume_result_t) (max value : Int)
    (h : value < max) :
    int64_range_resume r₁ max value = int64_range_resume r₂ max value := by
  simp only [int64_range_resume, if_pos h]

/-! ## Theorems on the range generator -/

/-- C1: for every `max > 0` in the range of `int64_t`, a consumer that starts at
handle `int64_range_init max` and state `0` and feeds each returned state into
the next call gets, from call number `k + 1` with `k < max`, the value `k` and the
non-terminal state `k + 1`; call number `max + 1` returns the terminal state `0`. -/
theorem range_yields_zero_to_max (max : Int) (uninit : Nat → resume_result_t)
    (hpos : 0 < max) (hmax : isInt64 max) :
    (∀ k : Nat, (k : Int) < max →
        range_call max uninit k = { value := k, state := k + 1 } ∧
        (range_call max uninit k).state ≠ 0) ∧
    (range_call max uninit max.toNat).state = 0 := by
  have hle : max ≤ INT64_MAX := hmax.2
  constructor
  · intro k hk
    have hs := range_state_eq max uninit hle k (le_of_lt hk)
    have hw : wrap64 ((k : Int) + 1) = k + 1 := by
      apply wrap64_of_isInt64
      unfold isInt64 INT64_MIN; unfold INT64_MAX at hle ⊢
      omega
    have hr : range_call max uninit k = { value := k, state := k + 1 } := by
      simp only [range_call, int64_range_init, int64_range_resume, hs, if_pos hk, hw]
    refine ⟨hr, ?_⟩
    rw [hr]
    show ((k : Int) + 1) ≠ 0
    omega
  · have hcast : ((max.toNat : Nat) : Int) = max := Int.toNat_of_nonneg (le_of_lt hpos)
    have hs := range_state_eq max uninit hle max.toNat (le_of_eq hcast)
    simp only [range_call, int64_range_init, int64_range_resume, hs, hcast, lt_irrefl,
      if_false]

/-- Witness of C1 at `max = 3`: the calls return `(0, 1)`, `(1, 2)`, `(2, 3)` and
then the terminal state `0`. -/
theorem range_yields_zero_to_max_witness :
    (0 : Int) < 3 ∧ isInt64 3 ∧
    range_call 3 (fun _ => ⟨0, 0⟩) 0 = ⟨0, 1⟩ ∧
    range_call 3 (fun _ => ⟨0, 0⟩) 1 = ⟨1, 2⟩ ∧
    range_call 3 (fun _ => ⟨0, 0⟩) 2 = ⟨2, 3⟩ ∧
    (range_call 3 (fun _ => ⟨0, 0⟩) 3).state = 0 := by
  have h := range_yields_zero_to_max 3 (fun _ => ⟨0, 0⟩) (by decide) (by decide)
  refine ⟨by decide, by decide, ?_, ?_, ?_, ?_⟩
  · exact (h.1 0 (by decide)).1
  · exact (h.1 1 (by decide)).1
  · exact (h.1 2 (by decide)).1
  · exact h.2

/-- C2: for every `max ≤ 0` the first resume of a freshly initialised range
generator, at state `0`, returns the terminal state `0`. -/
theorem range_nonpositive_terminates_at_once (max : Int) (result : resume_result_t)
    (hmax : max ≤ 0) :
    (int64_range_resume result (int64_range_init max) 0).state = 0 := by
  have h : ¬ (0 : Int) < max := not_lt.mpr hmax
  simp only [int64_range_init, int64_range_resume, if_neg h]

/-- Witness of C2 at `max = -4`. -/
theorem range_nonpositive_terminates_at_once_witness :
    (-4 : Int) ≤ 0 ∧ (int64_range_resume ⟨17, 23⟩ (int64_range_init (-4)) 0).state = 0 :=
  ⟨by decide, range_nonpositive_terminates_at_once (-4) ⟨17, 23⟩ (by decide)⟩

/-- C3: single step of `int64_range_resume` on 64-bit arguments: if `value < max`
the result carries `value` and the state `value + 1`; otherwise it carries the
state `0`, whatever its value field holds. -/
theorem range_resume_step (result : resume_result_t) (max value : Int)
    (hmax : isInt64 max) (hvalue : isInt64 value) :
    (value < max →
        (int64_range_resume result max value).value = value ∧
        (int64_range_resume result max value).state = value + 1) ∧
    (¬ value < max → (int64_range_resume result max value).state = 0) := by
  constructor
  · intro h
    rw [range_resume_producing result max value hmax hvalue h]
    exact ⟨rfl, rfl⟩
  · intro h
    rw [range_resume_exhausted result max value h]

/-- Witness of C3 at `max = 5`, `value = 2`. -/
theorem range_resume_step_witness :
    isInt64 5 ∧ isInt64 2 ∧
    (((2 : Int) < 5 →
        (int64_range_resume ⟨17, 23⟩ 5 2).value = 2 ∧
        (int64_range_resume ⟨17, 23⟩ 5 2).state = 2 + 1) ∧
     (¬ (2 : Int) < 5 → (int64_range_resume ⟨17, 23⟩ 5 2).state = 0)) :=
  ⟨by decide, by decide, range_resume_step ⟨17, 23⟩ 5 2 (by decide) (by decide)⟩

/-- Counterexample to C4 as stated: at `max = 5` and state `-1` the call produces
(`-1 < 5`, value `-1`) and yet returns the state `0`, the terminal sentinel. -/
theorem range_sentinel_collision :
    isInt64 5 ∧ isInt64 (-1) ∧
    int64_range_resume ⟨17, 23⟩ 5 (-1) = ⟨-1, 0⟩ ∧
    ¬ ((int64_range_resume ⟨17, 23⟩ 5 (-1)).state = 0 ↔ ¬ ((-1 : Int) < 5)) := by
  decide

/-- C4, amended: for 64-bit `max` and every 64-bit state `value` other than `-1`
(so for every `value ≥ 0`), the returned state is the terminal sentinel `0` exactly
when the call did not produce, that is when `value < max` fails; a producing call
on such a state returns a non-zero successor state. -/
theorem range_state_zero_iff_exhausted (result : resume_result_t) (max value : Int)
    (hmax : isInt64 max) (hvalue : isInt64 value) (hne : value ≠ -1) :
    ((int64_range_resume result max value).state = 0 ↔ ¬ value < max) ∧
    (value < max → (int64_range_resume result max value).state ≠ 0) := by
  have hprod : value < max → (int64_range_resume result max value).state ≠ 0 := by
    intro h
    rw [range_resume_producing result max value hmax hvalue h]
    show value + 1 ≠ 0
    omega
  refine ⟨⟨fun h0 hlt => hprod hlt h0, ?_⟩, hprod⟩
  intro h
  rw [range_resume_exhausted result max value h]

/-- Witness of amended C4 at `max = 5`, `value = 4`. -/
theorem range_state_zero_iff_exhausted_witness :
    isInt64 5 ∧ isInt64 4 ∧ (4 : Int) ≠ -1 ∧
    (((int64_range_resume ⟨17, 23⟩ 5 4).state = 0 ↔ ¬ (4 : Int) < 5) ∧
     ((4 : Int) < 5 → (int64_range_resume ⟨17, 23⟩ 5 4).state ≠ 0)) :=
  ⟨by decide, by decide, by decide,
    range_state_zero_iff_exhausted ⟨17, 23⟩ 5 4 (by decide) (by decide) (by decide)⟩

/-- C5: `int64_range_init max` returns a handle numerically equal to `max`, for
every `max`; the initial resumable state that goes with it is `0`. -/
theorem range_init_handle_and_state (max : Int) :
    int64_range_init max = max ∧ int64_range_initial_state = 0 :=
  ⟨rfl, rfl⟩

/-- Counterexample to C8 as stated: two range generators initialised with the same
`max = 0` return, at their first (terminating) step, results whose value fields
differ, because the terminating branch never writes the field: the call is not a
function of (handle, state) alone, and the (value, terminal status) pairs differ. -/
theorem range_lockstep_terminal_value_differs :
    int64_range_resume ⟨5, 0⟩ (int64_range_init 0) 0 ≠
      int64_range_resume ⟨7, 0⟩ (int64_range_init 0) 0 ∧
    ((range_call 0 (fun _ => ⟨5, 0⟩) 0).value,
        decide ((range_call 0 (fun _ => ⟨5, 0⟩) 0).state = 0)) ≠
      ((range_call 0 (fun _ => ⟨7, 0⟩) 0).value,
        decide ((range_call 0 (fun _ => ⟨7, 0⟩) 0).state = 0)) := by
  decide

/-- C8, amended: the successor state returned by `int64_range_resume` is a function
of (handle, state) alone, and so is the whole result of a producing call.  Hence
two range generators initialised with the same `max` and resumed in lock-step from
state `0` report the same state, so the same terminal status, at every step, the
terminating one included, and the same value at every producing step. -/
theorem range_lockstep_agree (max : Int) (u₁ u₂ : Nat → resume_result_t) (k : Nat) :
    (∀ (r₁ r₂ : resume_result_t) (value : Int),
        (int64_range_resume r₁ max value).state = (int64_range_resume r₂ max value).state ∧
        (value < max → int64_range_resume r₁ max value = int64_range_resume r₂ max value)) ∧
    (range_call max u₁ k).state = (range_call max u₂ k).state ∧
    ((range_call max u₁ k).state ≠ 0 →
        (range_call max u₁ k).value = (range_call max u₂ k).value) := by
  have hs : range_state max u₁ k = range_state max u₂ k := range_state_indep max u₁ u₂ k
  refine ⟨fun r₁ r₂ value =>
      ⟨range_resume_state_indep r₁ r₂ max value, range_resume_indep_of_lt r₁ r₂ max value⟩,
    ?_, ?_⟩
  · simp only [range_call, hs]
    exact range_resume_state_indep _ _ _ _
  · intro hne
    by_cases hlt : range_state max u₂ k < max
    · simp only [range_call, hs, int64_range_init]
      rw [range_resume_indep_of_lt (u₁ k) (u₂ k) max _ hlt]
    · exfalso
      apply hne
      simp only [range_call, hs, int64_range_init]
      rw [range_resume_exhausted _ _ _ hlt]

/-! ## Lemmas on `scanf` and the input generator -/

lemma dropWhile_isspace_eq_nil (stdin : Source) (h : ∀ c ∈ stdin, isspace c = true) :
    stdin.dropWhile isspace = [] := by
  induction stdin with
  | nil => rfl
  | cons c cs ih =>
    have hc : isspace c = true := h c (List.mem_cons_self c cs)
    have hcs : ∀ d ∈ cs, isspace d = true := fun d hd => h d (List.mem_cons_of_mem c hd)
    simp only [List.dropWhile_cons, hc, if_true]
    exact ih hcs

lemma scanf_d64_ret (stdin : Source) :
    (scanf_d64 stdin).ret = EOF ∨ (scanf_d64 stdin).ret = 0 ∨ (scanf_d64 stdin).ret = 1 := by
  unfold scanf_d64
  split
  · exact Or.inl rfl
  · dsimp only
    split_ifs <;> simp

lemma scanf_d64_at_end (stdin : Source) (h : ∀ c ∈ stdin, isspace c = true) :
    scanf_d64 stdin = { ret := EOF, stored := none, rest := [] } := by
  unfold scanf_d64
  rw [dropWhile_isspace_eq_nil stdin h]

lemma input_resume_malformed (result : resume_result_t) (id state : Int) :
    int64_input_resume result id state ['x'] = ({ value := result.value, state := 1 }, ['x']) := by
  rfl

lemma input_state_malformed (uninit : Nat → resume_result_t) (k : Nat) :
    input_state uninit ['x'] k = (1, ['x']) := by
  induction k with
  | zero => rfl
  | succ k ih =>
    simp only [input_state, ih, input_resume_malformed]

lemma dropWhile_isspace_append (ws xs : List Char) (h : ∀ c ∈ ws, isspace c = true) :
    (ws ++ xs).dropWhile isspace = xs.dropWhile isspace := by
  induction ws with
  | nil => rfl
  | cons c cs ih =>
    have hc : isspace c = true := h c (List.mem_cons_self c cs)
    have hcs : ∀ d ∈ cs, isspace d = true := fun d hd => h d (List.mem_cons_of_mem c hd)
    simp only [List.cons_append, List.dropWhile_cons, hc, if_true]
    exact ih hcs

lemma takeWhile_isdigit_append (ds rest : List Char) (h : ∀ c ∈ ds, isdigit c = true)
    (hr : no_leading_digit rest) :
    (ds ++ rest).takeWhile isdigit = ds ∧ (ds ++ rest).dropWhile isdigit = rest := by
  induction ds with
  | nil =>
    cases rest with
    | nil => exact ⟨rfl, rfl⟩
    | cons c cs =>
      have hc : isdigit c = false := hr c rfl
      simp [List.takeWhile_cons, List.dropWhile_cons, hc]
  | cons d ds ih =>
    have hd : isdigit d = true := h d (List.mem_cons_self d ds)
    have hds : ∀ c ∈ ds, isdigit c = true := fun c hc => h c (List.mem_cons_of_mem d hc)
    simp [List.takeWhile_cons, List.dropWhile_cons, hd, ih hds]

lemma isdigit_not_space (c : Char) (h : isdigit c = true) : isspace c = false := by
  simp only [isdigit, isspace, Bool.and_eq_true, Bool.or_eq_false_iff, decide_eq_true_eq,
    decide_eq_false_iff_not, Bool.and_eq_false_iff] at *
  omega

lemma isdigit_not_sign (c : Char) (h : isdigit c = true) : c ≠ '-' ∧ c ≠ '+' := by
  constructor
  · intro hc; subst hc; exact absurd h (by decide)
  · intro hc; subst hc; exact absurd h (by decide)

lemma scanf_d64_numeral (n : numeral) (rest : Source) (hn : n.well_formed)
    (hr : no_leading_digit rest) :
    scanf_d64 (n.space ++ (n.sign ++ (n.digits ++ rest))) =
      { ret := 1, stored := some n.value, rest := rest } := by
  obtain ⟨hspace, hsign, hne, hdig⟩ := hn
  unfold scanf_d64
  rw [dropWhile_isspace_append _ _ hspace]
  cases hds : n.digits with
  | nil => exact absurd hds hne
  | cons d ds =>
    rw [hds] at hdig
    have hd : isdigit d = true := hdig d (List.mem_cons_self d ds)
    have hrest : ∀ c ∈ ds, isdigit c = true := fun c hc => hdig c (List.mem_cons_of_mem d hc)
    obtain ⟨htake, hdrop⟩ := takeWhile_isdigit_append ds rest hrest hr
    have hdsp := isdigit_not_space d hd
    obtain ⟨hm, hp⟩ := isdigit_not_sign d hd
    rcases hsign with hs | hs | hs
    · simp [hs, numeral.value, hds, List.dropWhile_cons, List.takeWhile_cons, hdsp, hm, hp,
        hd, htake, hdrop]
    · have h1 : isspace '-' = false := by decide
      simp [hs, numeral.value, hds, List.dropWhile_cons, List.takeWhile_cons, h1, hd, htake,
        hdrop]
    · have h1 : isspace '+' = false := by decide
      simp [hs, numeral.value, hds, List.dropWhile_cons, List.takeWhile_cons, h1, hd, htake,
        hdrop]

lemma well_formed_drop (ns : List numeral) (trailing : List Char) (h : well_formed ns trailing)
    (k : Nat) : well_formed (ns.drop k) trailing := by
  induction k generalizing ns with
  | zero => simpa using h
  | succ k ih =>
    cases ns with
    | nil => simpa using h
    | cons n ns => simpa using ih ns h.2.2

lemma input_resume_numeral (result : resume_result_t) (id state : Int) (n : numeral)
    (ns : List numeral) (trailing : List Char) (h : well_formed (n :: ns) trailing) :
    int64_input_resume result id state (source_text (n :: ns) trailing) =
      ({ value := n.value, state := 1 }, source_text ns trailing) := by
  simp only [int64_input_resume, source_text, scanf_d64_numeral n _ h.1 h.2.1]
  rfl

lemma input_resume_trailing (result : resume_result_t) (id state : Int)
    (trailing : List Char) (h : well_formed [] trailing) :
    int64_input_resume result id state (source_text [] trailing) =
      ({ value := result.value, state := 0 }, []) := by
  simp only [int64_input_resume, source_text, scanf_d64_at_end trailing h]
  rfl

lemma input_state_well_formed (uninit : Nat → resume_result_t) (ns : List numeral)
    (trailing : List Char) (h : well_formed ns trailing) (k : Nat) (hk : k ≤ ns.length) :
    input_state uninit (source_text ns trailing) k = (1, source_text (ns.drop k) trailing) := by
  induction k with
  | zero => rfl
  | succ k ih =>
    have hlt : k < ns.length := hk
    have hdrop : ns.drop k = ns[k] :: ns.drop (k + 1) := List.drop_eq_getElem_cons hlt
    have hwf := well_formed_drop ns trailing h k
    rw [hdrop] at hwf
    simp only [input_state, ih (le_of_lt hlt), hdrop, input_resume_numeral _ _ _ _ _ _ hwf]

/-! ## Theorems on the input generator -/

/-- C6: single step of `int64_input_resume` on the unread input `stdin`, for every
handle and state argument: if `scanf` can read an integer `v`, leaving `rest`
unread, the call returns the value `v` with the successor state `1` and leaves
`rest` unread; if only white space, or nothing, is left before the end of the
input, the call returns the terminal state `0`; the returned state is always `0`
or `1`. -/
theorem input_resume_step (result : resume_result_t) (id state : Int) (stdin : Source) :
    (∀ (v : Int) (rest : Source),
        scanf_d64 stdin = { ret := 1, stored := some v, rest := rest } →
        int64_input_resume result id state stdin = ({ value := v, state := 1 }, rest)) ∧
    ((∀ c ∈ stdin, isspace c = true) →
        (int64_input_resume result id state stdin).1.state = 0) ∧
    ((int64_input_resume result id state stdin).1.state = 0 ∨
      (int64_input_resume result id state stdin).1.state = 1) := by
  refine ⟨?_, ?_, ?_⟩
  · intro v rest h
    simp only [int64_input_resume, h]
    rfl
  · intro h
    simp only [int64_input_resume, scanf_d64_at_end stdin h]
    rfl
  · simp only [int64_input_resume]
    rcases scanf_d64_ret stdin with h | h | h
    · left; simp [h]
    · right; simp [h, EOF]
    · right; simp [h, EOF]

/-- Witness of C6 on the input `7 9`: the first call returns `(7, 1)` and leaves
` 9` unread; on an input of white space alone the call returns the state `0`. -/
theorem input_resume_step_witness :
    int64_input_resume ⟨17, 23⟩ 0 1 ['7', ' ', '9'] = (⟨7, 1⟩, [' ', '9']) ∧
    (int64_input_resume ⟨17, 23⟩ 0 1 [' ', ' ']).1.state = 0 :=
  ⟨(input_resume_step ⟨17, 23⟩ 0 1 ['7', ' ', '9']).1 7 [' ', '9'] (by decide),
    (input_resume_step ⟨17, 23⟩ 0 1 [' ', ' ']).2.1 (by decide)⟩

/-- C7, at the failing input `x`: the input holds no readable integer, yet every
call of a consumer that starts at state `1` returns the non-terminal state `1`,
stores no value and leaves the `x` unread, so no call ever returns the terminal
state `0`. -/
theorem input_never_terminates_on_malformed (uninit : Nat → resume_result_t) (k : Nat) :
    (input_call uninit ['x'] k).state = 1 ∧
    (input_call uninit ['x'] k).value = (uninit k).value ∧
    (input_state uninit ['x'] k).2 = ['x'] ∧
    (input_call uninit ['x'] k).state ≠ 0 := by
  have hs := input_state_malformed uninit k
  simp only [input_call, hs, input_resume_malformed]
  decide

/-- On an input that consists of the numerals `ns` and trailing white space, a
consumer that starts at state `1` gets from call number `k + 1`, for every
`k < ns.length`, the value of numeral `k` with the non-terminal state `1`, and
from call number `ns.length + 1` the terminal state `0`. -/
theorem input_yields_all_of_well_formed (uninit : Nat → resume_result_t) (ns : List numeral)
    (trailing : List Char) (h : well_formed ns trailing) :
    (∀ (k : Nat) (hk : k < ns.length),
        input_call uninit (source_text ns trailing) k = { value := ns[k].value, state := 1 }) ∧
    (input_call uninit (source_text ns trailing) ns.length).state = 0 := by
  constructor
  · intro k hk
    have hs := input_state_well_formed uninit ns trailing h k (le_of_lt hk)
    have hdrop : ns.drop k = ns[k] :: ns.drop (k + 1) := List.drop_eq_getElem_cons hk
    have hwf := well_formed_drop ns trailing h k
    rw [hdrop] at hwf
    simp only [input_call, hs, hdrop, input_resume_numeral _ _ _ _ _ _ hwf]
  · have hs := input_state_well_formed uninit ns trailing h ns.length (le_refl _)
    have hwf := well_formed_drop ns trailing h ns.length
    rw [List.drop_length] at hs hwf
    simp only [input_call, hs, input_resume_trailing _ _ _ _ hwf]

/-- The hypothesis of `input_yields_all_of_well_formed` holds of the text `7 -9`
followed by a blank, and the calls on it return `(7, 1)`, `(-9, 1)`, then state `0`. -/
theorem input_yields_all_of_well_formed_witness :
    well_formed [⟨[], [], ['7']⟩, ⟨[' '], ['-'], ['9']⟩] [' '] ∧
    input_call (fun _ => ⟨17, 23⟩) ['7', ' ', '-', '9', ' '] 0 = ⟨7, 1⟩ ∧
    input_call (fun _ => ⟨17, 23⟩) ['7', ' ', '-', '9', ' '] 1 = ⟨-9, 1⟩ ∧
    (input_call (fun _ => ⟨17, 23⟩) ['7', ' ', '-', '9', ' '] 2).state = 0 := by
  have hwf : well_formed [⟨[], [], ['7']⟩, ⟨[' '], ['-'], ['9']⟩] [' '] := by
    simp [well_formed, numeral.well_formed, no_leading_digit, source_text]
    decide
  have h := input_yields_all_of_well_formed (fun _ => ⟨17, 23⟩) _ _ hwf
  exact ⟨hwf, h.1 0 (by decide), h.1 1 (by decide), h.2⟩

/-- The scenario of the specification: on the input `7 9` the calls return
`(7, 1)`, `(9, 1)` and then the terminal state `0`. -/
theorem input_scenario_seven_nine :
    (List.range 3).map (input_call (fun _ => ⟨17, 23⟩) ['7', ' ', '9']) =
      [⟨7, 1⟩, ⟨9, 1⟩, ⟨17, 0⟩] := by
  decide

/-! ## Finalisation -/

lemma perform_all_append (xs ys : List call) (stdin : Source) :
    perform_all (xs ++ ys) stdin =
      ((perform_all xs stdin).1 ++ (perform_all ys (perform_all xs stdin).2).1,
        (perform_all ys (perform_all xs stdin).2).2) := by
  induction xs generalizing stdin with
  | nil => simp [perform_all]
  | cons x xs ih => simp [perform_all, ih, List.append_assoc]

lemma perform_all_range_finalize (id : Int) (cs : List call) (stdin : Source) :
    perform_all (call.range_finalize id :: cs) stdin = perform_all cs stdin := by
  simp [perform_all, perform, int64_range_finalize]

lemma perform_all_input_finalize (id : Int) (cs : List call) (stdin : Source) :
    perform_all (call.input_finalize id :: cs) stdin = perform_all cs stdin := by
  simp [perform_all, perform, int64_input_finalize]

/-- C9: `int64_range_finalize` and `int64_input_finalize` are no-ops: for every
handle they return nothing and leave the unread input as it was; and a finalize
placed after any sequence `before` of generator calls (the empty one included)
changes neither the results those calls returned, nor the results any later calls
`after` return, nor the input left unread. -/
theorem finalize_is_noop (id : Int) (stdin : Source) (before after : List call) :
    int64_range_finalize id stdin = ((), stdin) ∧
    int64_input_finalize id stdin = ((), stdin) ∧
    perform_all (before ++ call.range_finalize id :: after) stdin =
      perform_all (before ++ after) stdin ∧
    perform_all (before ++ call.input_finalize id :: after) stdin =
      perform_all (before ++ after) stdin ∧
    (perform_all (before ++ [call.range_finalize id]) stdin).1 = (perform_all before stdin).1 ∧
    (perform_all (before ++ [call.input_finalize id]) stdin).1 = (perform_all before stdin).1 := by
  refine ⟨rfl, rfl, ?_, ?_, ?_, ?_⟩
  · rw [perform_all_append, perform_all_range_finalize, ← perform_all_append]
  · rw [perform_all_append, perform_all_input_finalize, ← perform_all_append]
  · rw [perform_all_append, perform_all_range_finalize]
    simp [perform_all]
  · rw [perform_all_append, perform_all_input_finalize]
    simp [perform_all]

/-! ## Guarded allocation -/

/-- C10: `_$checked_malloc` over the address that `malloc` returns.  For `size > 0`
it either returns that address, which is then not `NULL`, or, when `malloc` returned
`NULL`, it writes the text of `strerror(ENOMEM)` and a line end to the diagnostic
stream and exits with status `1`; it never returns `NULL` for `size > 0`, and it
exits in no other case.  For `size = 0` it returns the address of `malloc`
unchanged and writes nothing, also when that address is `NULL`. -/
theorem checked_malloc_guard (env : libc) (size : Nat) :
    (0 < size →
      (env.malloc size ≠ NULL ∧
        checked_malloc env size = outcome.returned (env.malloc size) "") ∨
      (env.malloc size = NULL ∧
        checked_malloc env size = outcome.exited 1 (env.strerror env.ENOMEM ++ "\n"))) ∧
    (0 < size → ∀ err : String, checked_malloc env size ≠ outcome.returned NULL err) ∧
    (∀ (status : Int) (err : String), checked_malloc env size = outcome.exited status err →
      status = 1 ∧ status ≠ 0 ∧ 0 < size ∧ env.malloc size = NULL) ∧
    (size = 0 → checked_malloc env size = outcome.returned (env.malloc 0) "") := by
  refine ⟨?_, ?_, ?_, ?_⟩
  · intro hsize
    by_cases hnull : env.malloc size = NULL
    · right
      refine ⟨hnull, ?_⟩
      simp only [checked_malloc, if_pos (And.intro hsize hnull)]
    · left
      refine ⟨hnull, ?_⟩
      have hc : ¬ (size > 0 ∧ env.malloc size = NULL) := fun h => hnull h.2
      simp only [checked_malloc, if_neg hc]
  · intro hsize err
    by_cases hnull : env.malloc size = NULL
    · simp only [checked_malloc, if_pos (And.intro hsize hnull)]
      exact fun h => outcome.noConfusion h
    · have hc : ¬ (size > 0 ∧ env.malloc size = NULL) := fun h => hnull h.2
      simp only [checked_malloc, if_neg hc]
      intro h
      injection h with h1 _
      exact hnull h1
  · intro status err h
    by_cases hc : size > 0 ∧ env.malloc size = NULL
    · simp only [checked_malloc, if_pos hc] at h
      injection h with h1 _
      subst h1
      exact ⟨rfl, by decide, hc.1, hc.2⟩
    · simp only [checked_malloc, if_neg hc] at h
      exact outcome.noConfusion h
  · intro hsize
    subst hsize
    have hc : ¬ (0 > 0 ∧ env.malloc 0 = NULL) := fun h => absurd h.1 (lt_irrefl 0)
    simp only [checked_malloc, if_neg hc]

/-- Witness of C10: with a `malloc` that fails on every request, a request of 8
bytes exits with status `1` after writing the diagnostic, and a request of 0
bytes returns `NULL`. -/
theorem checked_malloc_guard_witness :
    checked_malloc ⟨fun _ => NULL, fun _ => "Cannot allocate memory", 12⟩ 8 =
      outcome.exited 1 "Cannot allocate memory\n" ∧
    checked_malloc ⟨fun _ => NULL, fun _ => "Cannot allocate memory", 12⟩ 0 =
      outcome.returned NULL "" := by
  have h := checked_malloc_guard ⟨fun _ => NULL, fun _ => "Cannot allocate memory", 12⟩ 8
  have h0 := checked_malloc_guard ⟨fun _ => NULL, fun _ => "Cannot allocate memory", 12⟩ 0
  refine ⟨?_, h0.2.2.2 rfl⟩
  rcases h.1 (by decide) with h1 | h1
  · exact absurd rfl h1.1
  · exact h1.2

/-! ## Further theorems on the range generator -/

lemma range_reachable_bounds (max value : Int) (hmax : isInt64 max)
    (h : range_reachable max value) : 0 ≤ value ∧ (0 < max → value ≤ max) := by
  induction h with
  | initial => exact ⟨le_refl 0, fun h => le_of_lt h⟩
  | producing result value _ hlt ih =>
    have hv : isInt64 value := by
      unfold isInt64 INT64_MIN INT64_MAX at *
      omega
    rw [range_resume_producing result max value hmax hv hlt]
    show 0 ≤ value + 1 ∧ (0 < max → value + 1 ≤ max)
    omega

/-- Counterexample to C12 as stated: at `max = 3` the call on state `3` returns the
terminal state `0`, and the call on that returned state `0` produces the value `0`
with the non-terminal state `1`. -/
theorem range_terminated_restarts :
    (int64_range_resume ⟨17, 23⟩ 3 3).state = 0 ∧
    int64_range_resume ⟨17, 23⟩ 3 0 = ⟨0, 1⟩ ∧
    ¬ ((int64_range_resume ⟨17, 23⟩ 3 3).state = 0 →
        (int64_range_resume ⟨17, 23⟩ 3 0).state = 0) := by
  decide

/-- C12, amended: for a 64-bit `max ≤ 0` the terminated state is absorbing: whenever
a call returns the terminal state `0`, the call on that state returns `0` again.
For `max > 0` the call on state `0` returns the value `0` and the state `1`,
whichever call returned the `0`. -/
theorem range_terminated_absorbing_iff (max : Int) (hmax : isInt64 max) :
    (max ≤ 0 → ∀ (r₁ r₂ : resume_result_t) (s : Int),
        (int64_range_resume r₁ max s).state = 0 → (int64_range_resume r₂ max 0).state = 0) ∧
    (0 < max → ∀ r : resume_result_t, int64_range_resume r max 0 = { value := 0, state := 1 }) := by
  constructor
  · intro hle r₁ r₂ s _
    rw [range_resume_exhausted r₂ max 0 (not_lt.mpr hle)]
  · intro hpos r
    rw [range_resume_producing r max 0 hmax (by decide) hpos]
    rfl

/-- Witness of amended C12 at `max = -2`. -/
theorem range_terminated_absorbing_iff_witness :
    isInt64 (-2) ∧
    ((int64_range_resume ⟨17, 23⟩ (-2) 5).state = 0 →
      (int64_range_resume ⟨29, 31⟩ (-2) 0).state = 0) :=
  ⟨by decide, (range_terminated_absorbing_iff (-2) (by decide)).1 (by decide) ⟨17, 23⟩ ⟨29, 31⟩ 5⟩

/-- C13: for a 64-bit `max`, every state `value` that a consumer reaches from the
initial state `0` through producing calls satisfies `0 ≤ value`, and `value ≤ max`
when `max > 0` (for `max ≤ 0` it is `0`); a producing call on such a state returns
a value with `0 ≤ value < max` and a successor state that is at least `1`, hence
not the terminal sentinel `0`. -/
theorem range_reachable_invariant (max value : Int) (hmax : isInt64 max)
    (hreach : range_reachable max value) :
    0 ≤ value ∧ (0 < max → value ≤ max) ∧ (max ≤ 0 → value = 0) ∧
    (∀ result : resume_result_t, value < max →
        0 ≤ (int64_range_resume result max value).value ∧
        (int64_range_resume result max value).value < max ∧
        1 ≤ (int64_range_resume result max value).state ∧
        (int64_range_resume result max value).state ≠ 0) := by
  obtain ⟨h0, hle⟩ := range_reachable_bounds max value hmax hreach
  refine ⟨h0, hle, ?_, ?_⟩
  · intro hmax0
    cases hreach with
    | initial => rfl
    | producing result v hv hlt =>
      exfalso
      have := (range_reachable_bounds max v hmax hv).1
      omega
  · intro result hlt
    have hv : isInt64 value := by
      unfold isInt64 INT64_MIN INT64_MAX at *
      omega
    rw [range_resume_producing result max value hmax hv hlt]
    show 0 ≤ value ∧ value < max ∧ 1 ≤ value + 1 ∧ value + 1 ≠ 0
    omega

/-- Witness of C13 at `max = 3` and the state `2`, reached by two producing calls:
the call on it returns the value `2` and the state `3`. -/
theorem range_reachable_invariant_witness :
    isInt64 3 ∧ range_reachable 3 2 ∧
    (0 : Int) ≤ 2 ∧ (2 : Int) ≤ 3 ∧
    0 ≤ (int64_range_resume ⟨17, 23⟩ 3 2).value ∧
    (int64_range_resume ⟨17, 23⟩ 3 2).value < 3 ∧
    1 ≤ (int64_range_resume ⟨17, 23⟩ 3 2).state ∧
    (int64_range_resume ⟨17, 23⟩ 3 2).state ≠ 0 := by
  have h1 : range_reachable 3 1 :=
    range_reachable.producing ⟨17, 23⟩ 0 range_reachable.initial (by decide)
  have h2 : range_reachable 3 2 := range_reachable.producing ⟨17, 23⟩ 1 h1 (by decide)
  have h := range_reachable_invariant 3 2 (by decide) h2
  exact ⟨by decide, h2, h.1, h.2.1 (by decide), h.2.2.2 ⟨17, 23⟩ (by decide)⟩

/-- C14: for 64-bit `max` and `value` with `value < max`, the sum `value + 1` is at
most `max`, so within the range of `int64_t`: its 64-bit reduction is `value + 1`
itself, and this is the successor state that `int64_range_resume` returns. -/
theorem range_successor_no_overflow (result : resume_result_t) (max value : Int)
    (hmax : isInt64 max) (hvalue : isInt64 value) (hlt : value < max) :
    value + 1 ≤ max ∧ max ≤ INT64_MAX ∧ isInt64 (value + 1) ∧
    wrap64 (value + 1) = value + 1 ∧
    (int64_range_resume result max value).state = value + 1 := by
  have hin : isInt64 (value + 1) := by
    unfold isInt64 INT64_MIN INT64_MAX at *
    omega
  refine ⟨by omega, hmax.2, hin, wrap64_of_isInt64 _ hin, ?_⟩
  rw [range_resume_producing result max value hmax hvalue hlt]

/-- Witness of C14 at `max = INT64_MAX` and `value = INT64_MAX - 1`. -/
theorem range_successor_no_overflow_witness :
    isInt64 9223372036854775807 ∧ isInt64 9223372036854775806 ∧
    wrap64 (9223372036854775806 + 1) = 9223372036854775806 + 1 ∧
    (int64_range_resume ⟨17, 23⟩ 9223372036854775807 9223372036854775806).state =
      9223372036854775806 + 1 := by
  have h := range_successor_no_overflow ⟨17, 23⟩ 9223372036854775807 9223372036854775806
    (by decide) (by decide) (by decide)
  exact ⟨by decide, by decide, h.2.2.2.1, h.2.2.2.2⟩

/-! ## Further theorems on numeric input and the input generator -/

lemma dropWhile_isspace_head (stdin : Source) (c : Char) (cs : Source)
    (h : stdin.dropWhile isspace = c :: cs) : isspace c = false := by
  induction stdin with
  | nil => exact absurd h (by simp)
  | cons d ds ih =>
    cases hd : isspace d with
    | true =>
      rw [List.dropWhile_cons, hd] at h
      exact ih h
    | false =>
      rw [List.dropWhile_cons, hd] at h
      have hdc : d = c := (List.cons.inj h).1
      rw [← hdc]
      exact hd

lemma scanf_d64_matching_failure (stdin : Source) (c : Char) (cs : Source)
    (hnext : stdin.dropWhile isspace = c :: cs) (hd : isdigit c = false)
    (hm : c ≠ '-') (hp : c ≠ '+') :
    scanf_d64 stdin = { ret := 0, stored := none, rest := c :: cs } := by
  unfold scanf_d64
  rw [hnext]
  simp [hm, hp, List.takeWhile_cons, hd]

lemma input_resume_matching_failure (result : resume_result_t) (id state : Int)
    (stdin : Source) (c : Char) (cs : Source)
    (hnext : stdin.dropWhile isspace = c :: cs) (hd : isdigit c = false)
    (hm : c ≠ '-') (hp : c ≠ '+') :
    int64_input_resume result id state stdin =
      ({ value := result.value, state := 1 }, c :: cs) := by
  simp only [int64_input_resume, scanf_d64_matching_failure stdin c cs hnext hd hm hp]
  rfl

lemma dropWhile_isspace_fixed (stdin : Source) (c : Char) (cs : Source)
    (hnext : stdin.dropWhile isspace = c :: cs) :
    (c :: cs).dropWhile isspace = c :: cs := by
  rw [List.dropWhile_cons, dropWhile_isspace_head stdin c cs hnext]
  rfl

lemma input_state_matching_failure (uninit : Nat → resume_result_t) (stdin : Source)
    (c : Char) (cs : Source) (hnext : stdin.dropWhile isspace = c :: cs)
    (hd : isdigit c = false) (hm : c ≠ '-') (hp : c ≠ '+') (k : Nat) :
    input_state uninit stdin (k + 1) = (1, c :: cs) := by
  have hfix := dropWhile_isspace_fixed stdin c cs hnext
  induction k with
  | zero =>
    simp only [input_state, input_resume_matching_failure _ _ _ stdin c cs hnext hd hm hp]
  | succ k ih =>
    rw [input_state, ih]
    simp only [input_resume_matching_failure _ _ _ (c :: cs) c cs hfix hd hm hp]

/-- Counterexample to C11 as stated: with the same content `7` in its local,
`read_int64` returns `7` and leaves nothing unread both on the exhausted input and
on the input `7`, where `int64_input_resume` returns the state `0` and the state
`1`; so no test on the result of `read_int64` agrees with that state. -/
theorem read_int64_no_end_signal :
    read_int64 7 [] = (7, []) ∧
    (int64_input_resume ⟨7, 0⟩ int64_input_init 1 []).1.state = 0 ∧
    read_int64 7 ['7'] = (7, []) ∧
    (int64_input_resume ⟨7, 0⟩ int64_input_init 1 ['7']).1.state = 1 ∧
    ¬ ∃ d : Int × Source → Bool, ∀ (value : Int) (stdin : Source),
        (d (read_int64 value stdin) = true ↔
          (int64_input_resume ⟨value, 0⟩ int64_input_init 1 stdin).1.state = 1) := by
  refine ⟨by decide, by decide, by decide, by decide, ?_⟩
  rintro ⟨d, hd⟩
  have h0 := hd 7 []
  have h1 := hd 7 ['7']
  have e0 : read_int64 7 [] = (7, []) := by decide
  have e1 : read_int64 7 ['7'] = (7, []) := by decide
  have s0 : (int64_input_resume ⟨7, 0⟩ int64_input_init 1 []).1.state = 0 := by decide
  have s1 : (int64_input_resume ⟨7, 0⟩ int64_input_init 1 ['7']).1.state = 1 := by decide
  rw [e0, s0] at h0
  rw [e1, s1] at h1
  have : (0 : Int) = 1 := h0.mp (h1.mpr rfl)
  exact absurd this (by decide)

/-- C11, amended: `read_int64` reads one signed 64-bit integer from the unread
input: when `scanf` converts an integer `v`, leaving `rest` unread, it returns `v`
and leaves `rest` unread, which is the value and the unread input that
`int64_input_resume` returns there, whatever the uninitialised locals of the two
calls hold.  Its result carries no end-of-input signal: there are an exhausted
input and an input holding an integer on which `read_int64` can return the same
result, while `int64_input_resume` returns the state `0` on the first and the
state `1` on the second. -/
theorem read_int64_value_only (value : Int) (stdin : Source) :
    (∀ (v : Int) (rest : Source),
        scanf_d64 stdin = { ret := 1, stored := some v, rest := rest } →
        read_int64 value stdin = (v, rest) ∧
        ∀ (result : resume_result_t) (id state : Int),
          int64_input_resume result id state stdin = ({ value := v, state := 1 }, rest)) ∧
    (∃ (content : Int) (exhausted holding : Source),
        (∀ c ∈ exhausted, isspace c = true) ∧
        (scanf_d64 holding).ret = 1 ∧
        (∀ other : Int, read_int64 content exhausted = read_int64 other holding) ∧
        (∀ (result : resume_result_t) (id state : Int),
          (int64_input_resume result id state exhausted).1.state = 0) ∧
        (∀ (result : resume_result_t) (id state : Int),
          (int64_input_resume result id state holding).1.state = 1)) := by
  constructor
  · intro v rest h
    refine ⟨?_, ?_⟩
    · simp only [read_int64, h]
    · intro result id state
      simp only [int64_input_resume, h]
      rfl
  · refine ⟨7, [], ['7'], ?_, ?_, ?_, ?_, ?_⟩
    · intro c hc
      exact absurd hc (List.not_mem_nil c)
    · decide
    · intro other
      rfl
    · intro result id state
      rfl
    · intro result id state
      rfl

/-- C15: when the next character of the input that is not white space is neither
a digit nor a sign, `scanf` returns `0`, not `EOF`, and `int64_input_resume`, for
every handle and state argument, returns the non-terminal state `1`, leaves its
value field as it was on entry and leaves that character unread; the same holds on
the input it leaves, so every call of a consumer that starts at state `1` returns
the state `1` and none returns the terminal state `0`. -/
theorem input_matching_failure_never_terminates (uninit : Nat → resume_result_t)
    (stdin : Source) (c : Char) (cs : Source)
    (hnext : stdin.dropWhile isspace = c :: cs) (hd : isdigit c = false)
    (hm : c ≠ '-') (hp : c ≠ '+') :
    (scanf_d64 stdin).ret = 0 ∧ (scanf_d64 stdin).ret ≠ EOF ∧
    (∀ (result : resume_result_t) (id state : Int),
        int64_input_resume result id state stdin =
          ({ value := result.value, state := 1 }, c :: cs)) ∧
    (∀ (result : resume_result_t) (id state : Int),
        int64_input_resume result id state (c :: cs) =
          ({ value := result.value, state := 1 }, c :: cs)) ∧
    (∀ k : Nat,
        (input_call uninit stdin k).state = 1 ∧
        (input_call uninit stdin k).state ≠ 0 ∧
        (input_call uninit stdin k).value = (uninit k).value ∧
        (input_state uninit stdin (k + 1)).2 = c :: cs) := by
  have hfix := dropWhile_isspace_fixed stdin c cs hnext
  have hscan := scanf_d64_matching_failure stdin c cs hnext hd hm hp
  refine ⟨by rw [hscan], by rw [hscan]; show (0 : Int) ≠ EOF; decide, ?_, ?_, ?_⟩
  · intro result id state
    exact input_resume_matching_failure result id state stdin c cs hnext hd hm hp
  · intro result id state
    exact input_resume_matching_failure result id state (c :: cs) c cs hfix hd hm hp
  · intro k
    have hnextstate := input_state_matching_failure uninit stdin c cs hnext hd hm hp k
    have hcall : input_call uninit stdin k = { value := (uninit k).value, state := 1 } := by
      cases k with
      | zero =>
        simp only [input_call, input_state,
          input_resume_matching_failure _ _ _ stdin c cs hnext hd hm hp]
      | succ j =>
        simp only [input_call, input_state_matching_failure uninit stdin c cs hnext hd hm hp j,
          input_resume_matching_failure _ _ _ (c :: cs) c cs hfix hd hm hp]
    rw [hcall, hnextstate]
    exact ⟨rfl, by show (1 : Int) ≠ 0; decide, rfl, rfl⟩

/-- Witness of C15 on the input ` x9`: every call returns the state `1` and leaves
`x9` unread. -/
theorem input_matching_failure_never_terminates_witness :
    [' ', 'x', '9'].dropWhile isspace = 'x' :: ['9'] ∧ isdigit 'x' = false ∧
    int64_input_resume ⟨17, 23⟩ 0 1 [' ', 'x', '9'] = (⟨17, 1⟩, ['x', '9']) ∧
    (input_call (fun _ => ⟨17, 23⟩) [' ', 'x', '9'] 5).state = 1 := by
  have h := input_matching_failure_never_terminates (fun _ => ⟨17, 23⟩) [' ', 'x', '9'] 'x'
    ['9'] (by decide) (by decide) (by decide) (by decide)
  exact ⟨by decide, by decide, h.2.2.1 ⟨17, 23⟩ 0 1, (h.2.2.2.2 5).1⟩

/-- C16: `int64_input_resume` ignores both of its arguments: on every unread input
and for any two pairs of handle and state, the returned result and the input left
unread are the same; in particular a call with the terminal state `0`, or with
another handle, does what a call with the initial state `1` does.  The returned
state and the input left unread do not depend on the content of the uninitialised
local either. -/
theorem input_resume_ignores_arguments (result : resume_result_t) (stdin : Source)
    (id₁ state₁ id₂ state₂ : Int) :
    int64_input_resume result id₁ state₁ stdin = int64_input_resume result id₂ state₂ stdin ∧
    int64_input_resume result id₁ 0 stdin = int64_input_resume result int64_input_init 1 stdin ∧
    (∀ other : resume_result_t,
        (int64_input_resume other id₂ state₂ stdin).1.state =
          (int64_input_resume result id₁ state₁ stdin).1.state ∧
        (int64_input_resume other id₂ state₂ stdin).2 =
          (int64_input_resume result id₁ state₁ stdin).2) :=
  ⟨rfl, rfl, fun _ => ⟨rfl, rfl⟩⟩

end Stdlib
